import Mathlib

/-!
Shallow embedding of `get_up.py`, the daily wake-up digest pipeline.

External effects are made explicit arguments so that every function here
is the pure core of the corresponding Python function:
* HTTP provider responses become `Except Unit payload` values
  (`Except.error` models a raised exception or a non-2xx response);
* the random generator becomes an index oracle `Nat → Nat`
  (`random.sample` draws and `random.choice` picks are indices);
* the OpenCC traditional-to-simplified converter becomes an abstract
  `t2s : String → String` argument;
* `pendulum.now(TIMEZONE)` becomes an explicit timestamp value already
  converted to the fixed timezone Asia/Shanghai.
-/

/-- A timestamp converted to the fixed timezone Asia/Shanghai: the calendar
fields the program reads from a `pendulum` datetime. -/
structure ShTime where
  month : Nat
  day : Nat
  hour : Nat
deriving DecidableEq, Repr

/-- The value returned by `get_today_get_up_status` (get_up.py 701-711).
On an empty comment list the Python function returns the tuple
`(False, [])`; on a non-empty list it returns a plain bool. -/
inductive GetUpStatusResult where
  | tuple (flag : Bool) (comments : List ShTime)
  | bool (flag : Bool)
deriving DecidableEq, Repr

/-- Python truthiness of the returned value: a two-element tuple is truthy
whatever its contents are; a bool is itself. -/
def GetUpStatusResult.truthy : GetUpStatusResult → Bool
  | .tuple _ _ => true
  | .bool b => b

/-- `get_today_get_up_status` (get_up.py 701-711).  `comments` is the
tracking issue's comment list in creation order, each comment represented
by its creation instant converted to Asia/Shanghai; `now` is the current
instant in that timezone.  The code takes `comments[-1]` and compares
day and month only. -/
def get_today_get_up_status (comments : List ShTime) (now : ShTime) : GetUpStatusResult :=
  match comments with
  | [] => .tuple false []
  | c :: cs =>
    let latest := (c :: cs).getLast (List.cons_ne_nil c cs)
    .bool ((latest.day == now.day) && (latest.month == now.month))

/-- The externally visible effects of one `main` run (get_up.py 752-838):
whether a Telegram message was sent, a DingTalk message was sent, and a
comment was created on the tracking issue. -/
structure RunEffects where
  teleSent : Bool
  dingSent : Bool
  commentCreated : Bool
deriving DecidableEq, Repr

/-- No message sent and no comment created. -/
def noEffects : RunEffects := ⟨false, false, false⟩

/-- The gate-and-dispatch logic of `main` (get_up.py 783-838) combined with
`is_get_up_early = 3 <= now.hour <= 9` computed in `make_get_up_message`
(line 719).  `teleConfigured` stands for `tele_token and tele_chat_id`
being non-empty, `dingConfigured` for `dingtalk_webhook` being non-empty. -/
def mainRun (comments : List ShTime) (now : ShTime)
    (teleConfigured dingConfigured : Bool) : RunEffects :=
  if (get_today_get_up_status comments now).truthy then noEffects
  else
    let is_get_up_early := decide (3 ≤ now.hour) && decide (now.hour ≤ 9)
    if is_get_up_early then
      { teleSent := teleConfigured, dingSent := dingConfigured, commentCreated := true }
    else noEffects

/-! ## GitHub event stream (`_process_events`, get_up.py 448-487, and the
pagination loop of `get_yesterday_github_activity`, 552-577) -/

/-- The event kinds `_process_events` distinguishes via `event["type"]`. -/
inductive GhEventType where
  | pullRequestEvent
  | issuesEvent
  | watchEvent
  | other
deriving DecidableEq, Repr

/-- One item of the user event stream, with the fields `_process_events`
reads.  `created_at` is the parsed creation instant (comparable; modelled
as an integer timeline), `public` is `event.get("public", True)`,
`action` is `event["payload"].get("action")`, and `title`/`html_url`
carry the payload's pull-request or issue fields. -/
structure GhEvent where
  created_at : Int
  public : Bool
  type : GhEventType
  action : Option String
  title : String
  html_url : String
  repo_name : String
deriving DecidableEq, Repr

/-- The activity line the body of `_process_events`'s loop renders for one
event, if any (get_up.py 464-485). -/
def eventActivity (e : GhEvent) : Option String :=
  match e.type with
  | .pullRequestEvent =>
    if e.action = some "merged" then
      some ("合并了 PR: [" ++ e.title ++ "](" ++ e.html_url ++ ") (" ++ e.repo_name ++ ")")
    else none
  | .issuesEvent =>
    if e.action = some "closed" then
      some ("关闭了 Issue: [" ++ e.title ++ "](" ++ e.html_url ++ ") (" ++ e.repo_name ++ ")")
    else none
  | .watchEvent =>
    if e.action = some "started" then
      some ("Star 了项目: [" ++ e.repo_name ++ "](https://github.com/" ++ e.repo_name ++ ")")
    else none
  | .other => none

/-- The loop of `_process_events` (get_up.py 452-487): `break` once an
event is older than the window start, `continue` past out-of-window or
non-public events, collect rendered lines for the recognized kinds. -/
def processEventsLoop (ys ye : Int) : List GhEvent → List String
  | [] => []
  | e :: rest =>
    if e.created_at < ys then []
    else if ¬ (ys ≤ e.created_at ∧ e.created_at ≤ ye) then processEventsLoop ys ye rest
    else if e.public = false then processEventsLoop ys ye rest
    else
      match eventActivity e with
      | some line => line :: processEventsLoop ys ye rest
      | none => processEventsLoop ys ye rest

/-- `_process_events` (get_up.py 448-487): the loop runs over
`events[:100]`. -/
def process_events (events : List GhEvent) (ys ye : Int) : List String :=
  processEventsLoop ys ye (events.take 100)

/-- The fixed page numbers of `for page in range(1, 4)` (get_up.py 557). -/
def pagesFuel : List Nat := [1, 2, 3]

/-- The pagination loop of `get_yesterday_github_activity`
(get_up.py 557-575).  `stream p` is the response for page `p`: `none`
models an error response (the code prints and `continue`s), `some evs`
a 200 response.  An empty page `break`s before processing; a page with
fewer than 30 items is processed and then `break`s. -/
def eventPagesLoop (stream : Nat → Option (List GhEvent)) (ys ye : Int) : List Nat → List String
  | [] => []
  | p :: ps =>
    match stream p with
    | none => eventPagesLoop stream ys ye ps
    | some evs =>
      if evs = [] then []
      else
        let acts := process_events evs ys ye
        if evs.length < 30 then acts
        else acts ++ eventPagesLoop stream ys ye ps

/-- All activity lines collected from the paginated event stream. -/
def eventStreamActivities (stream : Nat → Option (List GhEvent)) (ys ye : Int) : List String :=
  eventPagesLoop stream ys ye pagesFuel

/-- The pages for which the loop of get_up.py 557-575 actually issues a
request, in order. -/
def pagesRequestedLoop (stream : Nat → Option (List GhEvent)) : List Nat → List Nat
  | [] => []
  | p :: ps =>
    p ::
      match stream p with
      | none => pagesRequestedLoop stream ps
      | some evs =>
        if evs = [] then []
        else if evs.length < 30 then []
        else pagesRequestedLoop stream ps

/-- The pages requested by one run of the pagination loop. -/
def pagesRequested (stream : Nat → Option (List GhEvent)) : List Nat :=
  pagesRequestedLoop stream pagesFuel

/-! ## Activity merger (get_up.py 577-592) -/

/-- `dict.fromkeys` deduplication: keeps the first occurrence of each
element, preserving order.  `seen` is the set of keys already emitted. -/
def dedupFromKeys {α : Type} [DecidableEq α] (seen : List α) : List α → List α
  | [] => []
  | a :: rest =>
    if a ∈ seen then dedupFromKeys seen rest
    else a :: dedupFromKeys (a :: seen) rest

/-- `list(dict.fromkeys(activities))` (get_up.py 584). -/
def uniqueActivities (acts : List String) : List String := dedupFromKeys [] acts

/-- `unique_activities[:15]` (get_up.py 587): the merged, deduplicated,
capped activity list. -/
def mergedActivities (acts : List String) : List String := (uniqueActivities acts).take 15

/-- The activity block built at get_up.py 582-592 from the concatenated
activity list: empty string when there is no activity, otherwise a
header plus one bulleted line per merged entry. -/
def activityBlock (acts : List String) : String :=
  if acts = [] then ""
  else
    "GitHub：\n\n" ++ String.intercalate "\n" ((mergedActivities acts).map (fun a => "• " ++ a))

/-! ## Historical events (get_up.py 220-413) -/

/-- One normalized historical event, the dict `{"year": ..., "text": ...,
"wiki_url": ...}` built by the two provider normalizers.  Baidu events
carry no `wiki_url` key; `event.get("wiki_url", "")` then yields `""`,
which is how they are represented here. -/
structure HistEvent where
  year : Int
  text : String
  wiki_url : String
deriving DecidableEq, Repr

/-- One raw item of the Baidu payload: `{"year": str, "title": str,
"desc": str}` (get_up.py 247). -/
structure BaiduRaw where
  year : String
  title : String
  desc : String
deriving DecidableEq, Repr

/-- One raw item of the Wikimedia payload with the fields the code reads:
`event.get("year")` (absent key modelled as `none`; the payload's year is
an int), `event.get("text", "")`, and the first page's
`content_urls.desktop.page` chain collapsed to a url per page. -/
structure WikiRaw where
  year : Option Int
  text : String
  pages : List String
deriving DecidableEq, Repr

/-- Accumulate a maximal leading digit run into a number, as
`int(match.group(1))` does on the matched digits. -/
def takeDigits : List Char → Nat → Nat
  | [], acc => acc
  | c :: rest, acc => if c.isDigit then takeDigits rest (acc * 10 + (c.toNat - 48)) else acc

/-- `re.search(r"(\d+)", s)`: the first maximal digit run of `s`, if any. -/
def searchDigits : List Char → Option Nat
  | [] => none
  | c :: rest => if c.isDigit then some (takeDigits (c :: rest) 0) else searchDigits rest

/-- `"公元前" in year_str`: substring containment of the BCE marker. -/
def containsBCE : List Char → Bool
  | [] => false
  | c :: rest => List.isPrefixOf ['公', '元', '前'] (c :: rest) || containsBCE rest

/-- `re.search(r"公元前(\d+)", s)`: the digit run following the first
occurrence of the BCE marker that is directly followed by a digit. -/
def searchBCEDigits : List Char → Option Nat
  | [] => none
  | c :: rest =>
    match c :: rest with
    | '公' :: '元' :: '前' :: d :: ds =>
      if d.isDigit then some (takeDigits (d :: ds) 0) else searchBCEDigits rest
    | _ => searchBCEDigits rest

/-- The year parsing of `get_history_today_from_baidu` (get_up.py 254-266):
a year string containing the BCE marker is parsed only by the BCE regex
and negated; otherwise the first digit run is the year; no match leaves
`year_match = None` and the event is dropped. -/
def parseBaiduYear (s : String) : Option Int :=
  if containsBCE s.data then (searchBCEDigits s.data).map (fun n => -(Int.ofNat n))
  else (searchDigits s.data).map (fun n => Int.ofNat n)

/-- After a rejected `<`, find the first `>` of the `re` tag pattern and
return the remainder after it; the pattern needs at least one character
between the brackets, which the caller has already checked. -/
def afterGt : List Char → Option (List Char)
  | [] => none
  | c :: rest => if c = '>' then some rest else afterGt rest

/-- Locate the end of a `<[^>]+>` match starting right after a `<`:
fails when the next character is already `>` (the `+` needs at least one
character) or when no `>` follows at all. -/
def findTagEnd (l : List Char) : Option (List Char) :=
  match l with
  | [] => none
  | c :: rest => if c = '>' then none else afterGt rest

/-- `re.sub(r'<[^>]+>', '', text)` (get_up.py 271): remove every
non-overlapping tag match, scanning left to right.  The fuel is the
length of the text, which bounds the number of steps. -/
def stripTagsFuel : Nat → List Char → List Char
  | 0, l => l
  | _ + 1, [] => []
  | n + 1, c :: rest =>
    if c = '<' then
      match findTagEnd rest with
      | some rest2 => stripTagsFuel n rest2
      | none => c :: stripTagsFuel n rest
    else c :: stripTagsFuel n rest

/-- Tag removal on a string. -/
def stripTags (s : String) : String := String.mk (stripTagsFuel s.data.length s.data)

/-- Python `a or b` on strings: `b` when `a` is empty. -/
def pyOrString (a b : String) : String := if a = "" then b else a

/-- The per-item normalization of `get_history_today_from_baidu`
(get_up.py 253-272): parse the year, fall back from `title` to `desc`,
strip tags; items without a parsable year yield nothing. -/
def baiduNormalize (r : BaiduRaw) : Option HistEvent :=
  match parseBaiduYear r.year with
  | none => none
  | some y => some { year := y, text := stripTags (pyOrString r.title r.desc), wiki_url := "" }

/-- `get_history_today_from_baidu` (get_up.py 220-278): any exception or
non-2xx response yields `[]`; otherwise each payload item is normalized
and unparsable-year items are dropped. -/
def get_history_today_from_baidu (resp : Except Unit (List BaiduRaw)) : List HistEvent :=
  match resp with
  | .error _ => []
  | .ok raws => raws.filterMap baiduNormalize

/-- The per-item normalization of `get_history_today_from_wikimedia`
(get_up.py 313-324): `if year:` keeps exactly the items whose year is
present and nonzero (Python truthiness of an int); the first page's url
or `""` becomes `wiki_url`. -/
def wikiNormalize (r : WikiRaw) : Option HistEvent :=
  match r.year with
  | none => none
  | some y =>
    if y ≠ 0 then
      some { year := y, text := r.text, wiki_url := r.pages.headD "" }
    else none

/-- `get_history_today_from_wikimedia` (get_up.py 281-330): any exception
or non-2xx response yields `[]`. -/
def get_history_today_from_wikimedia (resp : Except Unit (List WikiRaw)) : List HistEvent :=
  match resp with
  | .error _ => []
  | .ok raws => raws.filterMap wikiNormalize

/-- get_up.py 349-354: try Wikimedia first, fall back to Baidu when the
result is empty. -/
def eventsOf (wresp : Except Unit (List WikiRaw)) (bresp : Except Unit (List BaiduRaw)) :
    List HistEvent :=
  match get_history_today_from_wikimedia wresp with
  | [] => get_history_today_from_baidu bresp
  | l => l

/-- The first filter of `get_history_today` (get_up.py 360-364):
`birth_year <= year <= current_year`. -/
def inRangeFilter (birth_year current_year : Int) (events : List HistEvent) : List HistEvent :=
  events.filter (fun e => decide (birth_year ≤ e.year) && decide (e.year ≤ current_year))

/-- The relaxed filter of get_up.py 367-368: all positive years. -/
def positiveFilter (events : List HistEvent) : List HistEvent :=
  events.filter (fun e => decide (0 < e.year))

/-- The filter chain of `get_history_today` (get_up.py 360-368). -/
def filteredEvents (birth_year current_year : Int) (events : List HistEvent) : List HistEvent :=
  let f1 := inRangeFilter birth_year current_year events
  if f1 = [] then positiveFilter events else f1

/-- `random.sample(pop, k)` with the randomness made explicit: the oracle
supplies each draw's index, reduced modulo the remaining population size;
the drawn element is removed, so the sample is without replacement.
The code always calls it with `k ≤ len(pop)`. -/
def sampleWR (oracle : Nat → Nat) : Nat → List HistEvent → List HistEvent
  | 0, _ => []
  | k + 1, pop =>
    if h : pop = [] then []
    else
      have hpos : 0 < pop.length := List.length_pos.mpr h
      let i := oracle (k + 1) % pop.length
      pop.get ⟨i, Nat.mod_lt _ hpos⟩ :: sampleWR oracle k (pop.eraseIdx i)

/-- One step of the stable descending insertion modelling
`selected_events.sort(key=lambda x: x.get("year", 0), reverse=True)`
(get_up.py 378). -/
def insertDesc (e : HistEvent) : List HistEvent → List HistEvent
  | [] => [e]
  | a :: rest => if a.year ≤ e.year then e :: a :: rest else a :: insertDesc e rest

/-- Sort by year, descending. -/
def sortByYearDesc : List HistEvent → List HistEvent
  | [] => []
  | a :: rest => insertDesc a (sortByYearDesc rest)

/-- The selection step of `get_history_today` (get_up.py 374-378):
sample `min(limit, len(filtered))` events without replacement, then sort
the sample by year descending. -/
def selectedOf (oracle : Nat → Nat) (limit : Nat) (filtered : List HistEvent) :
    List HistEvent :=
  sortByYearDesc (sampleWR oracle (min limit filtered.length) filtered)

/-- `FALLBACK_INTERESTING_FACTS` (get_up.py 58-69). -/
def FALLBACK_INTERESTING_FACTS : List String :=
  [ "🎲 今天是个特别的日子，因为你又活过了新的一天！",
    "💡 有趣的事实：每天地球上大约会发生 50,000 次地震，但大多数我们感觉不到。",
    "🌍 你知道吗？地球每天会被大约 100 吨的宇宙尘埃撞击。",
    "⏰ 时间小知识：一天并不是精确的 24 小时，而是 23 小时 56 分 4 秒。",
    "🧠 大脑趣闻：你的大脑每天产生大约 50,000 个想法。",
    "📚 阅读启示：平均每人每天会说大约 16,000 个字。",
    "☕ 咖啡因事实：全世界每天要喝掉超过 20 亿杯咖啡。",
    "🌟 宇宙奥秘：光从太阳到达地球需要约 8 分 20 秒。",
    "💭 哲学思考：今天这个词在不同时区有 24 种不同的含义。",
    "🎯 激励语录：每一个伟大的成就，都始于决定去尝试。" ]

/-- `random.choice(FALLBACK_INTERESTING_FACTS)` with the random index made
explicit (reduced modulo the pool size, as a uniform pick is). -/
def fallbackFact (i : Nat) : String :=
  FALLBACK_INTERESTING_FACTS.get
    ⟨i % FALLBACK_INTERESTING_FACTS.length,
      Nat.mod_lt _ (by decide)⟩

/-- The per-event rendering of `get_history_today` (get_up.py 382-406):
age annotation (`if year and year >= birth_year` / `elif year and
year < birth_year`), newline collapsing, strip, traditional-to-simplified
conversion (`t2s`), and the linked or plain bullet line. -/
def renderLine (birth_year : Int) (t2s : String → String) (e : HistEvent) : String :=
  let age_text :=
    if e.year ≠ 0 ∧ birth_year ≤ e.year then
      "（那年我 " ++ toString (e.year - birth_year) ++ " 岁）"
    else if e.year ≠ 0 ∧ e.year < birth_year then
      "（我出生前 " ++ toString (birth_year - e.year) ++ " 年）"
    else ""
  let text := t2s ((e.text.replace "\n" " ").trim)
  if e.wiki_url ≠ "" then
    "• **" ++ toString e.year ++ "年**：[" ++ text ++ "](" ++ e.wiki_url ++ ") " ++ age_text ++ "  "
  else
    "• **" ++ toString e.year ++ "年**：" ++ text ++ " " ++ age_text ++ "  "

/-- `get_history_today` (get_up.py 333-413) with the external world made
explicit: provider responses, birth/current year, limit, the sampling
oracle, the `random.choice` index, and the OpenCC converter. -/
def get_history_today (wresp : Except Unit (List WikiRaw)) (bresp : Except Unit (List BaiduRaw))
    (birth_year current_year : Int) (limit : Nat)
    (oracle : Nat → Nat) (fillerIdx : Nat) (t2s : String → String) : String :=
  let events := eventsOf wresp bresp
  if events = [] then fallbackFact fillerIdx
  else
    let filtered := filteredEvents birth_year current_year events
    if filtered = [] then fallbackFact fillerIdx
    else
      "历史上的今天：\n\n" ++
        String.intercalate "\n"
          ((selectedOf oracle limit filtered).map (renderLine birth_year t2s))

/-! ## Year progress (get_up.py 679-698) -/

/-- get_up.py 685: `now.year % 4 == 0 and (now.year % 100 != 0 or
now.year % 400 == 0)`. -/
def is_leap_year (y : Int) : Bool :=
  (y % 4 == 0) && (y % 100 != 0 || y % 400 == 0)

/-- get_up.py 686: `366 if is_leap_year else 365`. -/
def total_days (y : Int) : Nat := if is_leap_year y then 366 else 365

/-- get_up.py 693: `int((day_of_year / total_days) * progress_bar_width)`.
The Python expression is evaluated in floating point; on the whole domain
`1 ≤ d ≤ total ≤ 366` the double-precision result equals the exact
rational floor, which is what is written here. -/
def filled_blocks (day_of_year total : Nat) : Nat := day_of_year * 20 / total

/-- get_up.py 696: `"█" * filled_blocks + "░" * empty_blocks` with
`empty_blocks = 20 - filled_blocks`. -/
def progress_bar (day_of_year total : Nat) : String :=
  String.mk
    (List.replicate (filled_blocks day_of_year total) '█' ++
      List.replicate (20 - filled_blocks day_of_year total) '░')

/-! ## Concrete inputs used to settle the claims -/

/-- An event older than the window start: first item of page 1 below. -/
def cexOldEvent : GhEvent := ⟨-5, true, .other, none, "", "", ""⟩

/-- A full first page (30 items) whose very first event is already older
than the window start. -/
def cexPage1 : List GhEvent := List.replicate 30 cexOldEvent

/-- An in-window merged-PR event placed on page 2. -/
def cexMergedPR : GhEvent := ⟨50, true, .pullRequestEvent, some "merged", "T", "u", "r"⟩

/-- A stream whose page 1 is full and starts with an old event, and whose
page 2 holds a fresh in-window event. -/
def cexStream : Nat → Option (List GhEvent) :=
  fun p => if p = 1 then some cexPage1 else if p = 2 then some [cexMergedPR] else some []

/-- A stream whose first page is short. -/
def cexShortStream : Nat → Option (List GhEvent) := fun _ => some [cexMergedPR]

/-! ## Helper lemmas -/

/-- An element of the deduplicated list was not among the already-seen keys. -/
theorem not_mem_seen_of_mem_dedup {α : Type} [DecidableEq α] (x : α) (l : List α) :
    ∀ seen, x ∈ dedupFromKeys seen l → x ∉ seen := by
  induction l with
  | nil => intro seen hx; simp [dedupFromKeys] at hx
  | cons a rest ih =>
    intro seen hx
    by_cases h : a ∈ seen
    · simp only [dedupFromKeys, if_pos h] at hx
      exact ih seen hx
    · simp only [dedupFromKeys, if_neg h] at hx
      rcases List.mem_cons.mp hx with rfl | hx'
      · exact h
      · intro hs
        exact ih (a :: seen) hx' (List.mem_cons_of_mem a hs)

/-- The deduplicated list has no duplicates. -/
theorem dedupFromKeys_nodup {α : Type} [DecidableEq α] (l : List α) :
    ∀ seen, (dedupFromKeys seen l).Nodup := by
  induction l with
  | nil => intro seen; simp [dedupFromKeys]
  | cons a rest ih =>
    intro seen
    by_cases h : a ∈ seen
    · simpa only [dedupFromKeys, if_pos h] using ih seen
    · simp only [dedupFromKeys, if_neg h]
      refine List.nodup_cons.mpr ⟨?_, ih (a :: seen)⟩
      intro hmem
      exact not_mem_seen_of_mem_dedup a rest (a :: seen) hmem (List.mem_cons_self a seen)

/-- Deduplication keeps a subsequence of the input, hence preserves the
relative order of the entries it keeps. -/
theorem dedupFromKeys_sublist {α : Type} [DecidableEq α] (l : List α) :
    ∀ seen, (dedupFromKeys seen l).Sublist l := by
  induction l with
  | nil => intro seen; simp [dedupFromKeys]
  | cons a rest ih =>
    intro seen
    by_cases h : a ∈ seen
    · simp only [dedupFromKeys, if_pos h]
      exact (ih seen).cons a
    · simp only [dedupFromKeys, if_neg h]
      exact (ih (a :: seen)).cons₂ a

/-- Every input element either survives deduplication or was already seen. -/
theorem mem_dedup_or_seen {α : Type} [DecidableEq α] (x : α) (l : List α) :
    ∀ seen, x ∈ l → x ∈ dedupFromKeys seen l ∨ x ∈ seen := by
  induction l with
  | nil => intro seen hx; simp at hx
  | cons a rest ih =>
    intro seen hx
    by_cases h : a ∈ seen
    · simp only [dedupFromKeys, if_pos h]
      rcases List.mem_cons.mp hx with rfl | hx'
      · exact Or.inr h
      · exact ih seen hx'
    · simp only [dedupFromKeys, if_neg h]
      rcases List.mem_cons.mp hx with rfl | hx'
      · exact Or.inl (List.mem_cons_self x _)
      · rcases ih (a :: seen) hx' with h' | h'
        · exact Or.inl (List.mem_cons_of_mem a h')
        · rcases List.mem_cons.mp h' with rfl | h''
          · exact Or.inl (List.mem_cons_self x _)
          · exact Or.inr h''

/-- Removing the element at a valid index and re-consing it in front is a
permutation of the original list. -/
theorem get_cons_eraseIdx_perm {α : Type} :
    ∀ (l : List α) (i : Nat) (h : i < l.length),
      (l.get ⟨i, h⟩ :: l.eraseIdx i).Perm l := by
  intro l
  induction l with
  | nil => intro i h; simp at h
  | cons a t ih =>
    intro i h
    cases i with
    | zero => simp [List.eraseIdx]
    | succ i =>
      have h' : i < t.length := Nat.lt_of_succ_lt_succ h
      show (t.get ⟨i, h'⟩ :: a :: t.eraseIdx i).Perm (a :: t)
      exact (List.Perm.swap a (t.get ⟨i, h'⟩) (t.eraseIdx i)).trans ((ih i h').cons a)

/-- A sample without replacement is a sub-permutation of the population:
it uses no population element more often than it occurs. -/
theorem sampleWR_subperm (oracle : Nat → Nat) :
    ∀ (k : Nat) (pop : List HistEvent), List.Subperm (sampleWR oracle k pop) pop := by
  intro k
  induction k with
  | zero => intro pop; simp [sampleWR]
  | succ k ih =>
    intro pop
    by_cases h : pop = []
    · simp [sampleWR, h]
    · simp only [sampleWR, dif_neg h]
      refine List.Subperm.trans ((List.subperm_cons _).mpr (ih _)) ?_
      exact (get_cons_eraseIdx_perm pop _ _).subperm

/-- When the requested size does not exceed the population, the sample has
exactly that size. -/
theorem sampleWR_length (oracle : Nat → Nat) :
    ∀ (k : Nat) (pop : List HistEvent),
      k ≤ pop.length → (sampleWR oracle k pop).length = k := by
  intro k
  induction k with
  | zero => intro pop _; simp [sampleWR]
  | succ k ih =>
    intro pop hk
    have h : pop ≠ [] := by
      intro he
      rw [he] at hk
      simp at hk
    simp only [sampleWR, dif_neg h, List.length_cons]
    have hlt : oracle (k + 1) % pop.length < pop.length :=
      Nat.mod_lt _ (List.length_pos.mpr h)
    have hlen := List.length_eraseIdx_add_one hlt
    rw [ih _ (by omega)]

/-- Inserting into a list yields a permutation of consing onto it. -/
theorem insertDesc_perm (e : HistEvent) : ∀ l, (insertDesc e l).Perm (e :: l) := by
  intro l
  induction l with
  | nil => simp [insertDesc]
  | cons a t ih =>
    by_cases h : a.year ≤ e.year
    · simp [insertDesc, h]
    · simp only [insertDesc, if_neg h]
      exact (ih.cons a).trans (List.Perm.swap e a t)

/-- Sorting permutes its input. -/
theorem sortByYearDesc_perm : ∀ l, (sortByYearDesc l).Perm l := by
  intro l
  induction l with
  | nil => simp [sortByYearDesc]
  | cons a t ih => exact (insertDesc_perm a (sortByYearDesc t)).trans (ih.cons a)

/-- Insertion preserves descending sortedness by year. -/
theorem insertDesc_sorted (e : HistEvent) :
    ∀ l, List.Sorted (fun a b : HistEvent => b.year ≤ a.year) l →
      List.Sorted (fun a b : HistEvent => b.year ≤ a.year) (insertDesc e l) := by
  intro l
  induction l with
  | nil => intro _; simp [insertDesc]
  | cons a t ih =>
    intro hs
    rw [List.sorted_cons] at hs
    obtain ⟨ha, ht⟩ := hs
    by_cases h : a.year ≤ e.year
    · simp only [insertDesc, if_pos h]
      rw [List.sorted_cons]
      refine ⟨?_, List.sorted_cons.mpr ⟨ha, ht⟩⟩
      intro b hb
      rcases List.mem_cons.mp hb with rfl | hb'
      · exact h
      · exact le_trans (ha b hb') h
    · simp only [insertDesc, if_neg h]
      rw [List.sorted_cons]
      refine ⟨?_, ih ht⟩
      intro b hb
      have hb' : b ∈ e :: t := (insertDesc_perm e t).mem_iff.mp hb
      rcases List.mem_cons.mp hb' with rfl | hb''
      · exact le_of_not_le h
      · exact ha b hb''

/-- The sort of get_up.py 378 is sorted by year, descending. -/
theorem sortByYearDesc_sorted :
    ∀ l, List.Sorted (fun a b : HistEvent => b.year ≤ a.year) (sortByYearDesc l) := by
  intro l
  induction l with
  | nil => simp [sortByYearDesc]
  | cons a t ih => exact insertDesc_sorted a _ ih

/-- The filter chain never invents events. -/
theorem filteredEvents_subset (b c : Int) (events : List HistEvent) :
    filteredEvents b c events ⊆ events := by
  by_cases h : inRangeFilter b c events = []
  · simp only [filteredEvents, if_pos h]
    exact List.filter_subset' _
  · simp only [filteredEvents, if_neg h]
    exact List.filter_subset' _

/-- The filler pick always lands inside the pool. -/
theorem fallbackFact_mem (i : Nat) : fallbackFact i ∈ FALLBACK_INTERESTING_FACTS :=
  List.get_mem _ _ _

/-- When the Wikimedia result is empty, the event list is the Baidu one. -/
theorem eventsOf_of_wiki_empty (wresp : Except Unit (List WikiRaw))
    (bresp : Except Unit (List BaiduRaw))
    (h : get_history_today_from_wikimedia wresp = []) :
    eventsOf wresp bresp = get_history_today_from_baidu bresp := by
  unfold eventsOf
  rw [h]

/-- The pagination loop never requests more pages than its fuel allows. -/
theorem pagesRequestedLoop_length_le (stream : Nat → Option (List GhEvent)) :
    ∀ fuel : List Nat, (pagesRequestedLoop stream fuel).length ≤ fuel.length := by
  intro fuel
  induction fuel with
  | nil => simp [pagesRequestedLoop]
  | cons p ps ih =>
    cases h : stream p with
    | none =>
      simp only [pagesRequestedLoop, h, List.length_cons]
      omega
    | some evs =>
      simp only [pagesRequestedLoop, h, List.length_cons]
      split_ifs <;> simp [ih]

/-! ## Claims -/

/-- C1: the claim says that `get_today_get_up_status` returns a falsy
"not run today" result when the comment list is empty.  The code instead
returns the tuple `(False, [])`, which is truthy in Python, so the
caller's `if is_today:` check treats an empty comment list as "already
run".  This theorem evaluates the code at the failing input and also
records that the non-empty case behaves as the claim describes. -/
theorem claim1_empty_comments_truthy :
    (get_today_get_up_status [] ⟨10, 12, 7⟩).truthy = true ∧
    get_today_get_up_status [] ⟨10, 12, 7⟩ = GetUpStatusResult.tuple false [] ∧
    (get_today_get_up_status [⟨10, 12, 3⟩] ⟨10, 12, 7⟩).truthy = true ∧
    (get_today_get_up_status [⟨9, 12, 3⟩] ⟨10, 12, 7⟩).truthy = false := by
  exact ⟨rfl, rfl, rfl, rfl⟩

/-- C4: the merged activity list is duplicate-free, order-preserving
(a subsequence of the search-then-stream concatenation that keeps every
distinct entry), capped at 15 entries, and an empty combined list yields
the empty string rather than a placeholder block. -/
theorem claim4_merger (search stream_acts : List String) :
    (mergedActivities (search ++ stream_acts)).Nodup ∧
    (mergedActivities (search ++ stream_acts)).length ≤ 15 ∧
    (mergedActivities (search ++ stream_acts)).Sublist (search ++ stream_acts) ∧
    (∀ a, a ∈ uniqueActivities (search ++ stream_acts) ↔ a ∈ search ++ stream_acts) ∧
    (search ++ stream_acts = [] → activityBlock (search ++ stream_acts) = "") := by
  refine ⟨?_, ?_, ?_, ?_, ?_⟩
  · exact List.Nodup.sublist (List.take_sublist _ _) (dedupFromKeys_nodup _ [])
  · exact List.length_take_le _ _
  · exact (List.take_sublist _ _).trans (dedupFromKeys_sublist _ [])
  · intro a
    constructor
    · intro h
      exact (dedupFromKeys_sublist _ []).subset h
    · intro h
      rcases mem_dedup_or_seen a _ [] h with h' | h'
      · exact h'
      · simp at h'
  · intro h
    simp [activityBlock, h]

/-- Witness for C4 at concrete inputs. -/
theorem claim4_merger_witness :
    activityBlock ([] ++ ([] : List String)) = "" ∧
    "x" ∈ uniqueActivities (["x"] ++ ["y"]) := by
  exact ⟨(claim4_merger [] []).2.2.2.2 rfl,
    ((claim4_merger ["x"] ["y"]).2.2.2.1 "x").mpr (by decide)⟩

/-- C5: for a non-empty filtered set, the selection has size
`min(limit, |filtered|)` (hence never exceeds the limit), is drawn from
the filtered set without replacement (a sub-permutation), and the
rendered order is sorted by year, descending. -/
theorem claim5_selector (oracle : Nat → Nat) (limit : Nat) (filtered : List HistEvent)
    (_h : filtered ≠ []) :
    (selectedOf oracle limit filtered).length = min limit filtered.length ∧
    (selectedOf oracle limit filtered).length ≤ limit ∧
    List.Subperm (selectedOf oracle limit filtered) filtered ∧
    List.Sorted (fun a b : HistEvent => b.year ≤ a.year) (selectedOf oracle limit filtered) := by
  have hperm := sortByYearDesc_perm (sampleWR oracle (min limit filtered.length) filtered)
  have hlen : (sampleWR oracle (min limit filtered.length) filtered).length =
      min limit filtered.length :=
    sampleWR_length oracle _ _ (Nat.min_le_right _ _)
  refine ⟨?_, ?_, ?_, ?_⟩
  · rw [selectedOf, hperm.length_eq, hlen]
  · rw [selectedOf, hperm.length_eq, hlen]
    exact Nat.min_le_left _ _
  · exact hperm.subperm.trans (sampleWR_subperm oracle _ _)
  · exact sortByYearDesc_sorted _

/-- Witness for C5 at a concrete filtered set and limit. -/
theorem claim5_selector_witness :
    ([⟨2000, "a", ""⟩, ⟨1990, "b", ""⟩] : List HistEvent) ≠ [] ∧
    (selectedOf (fun _ => 0) 1 [⟨2000, "a", ""⟩, ⟨1990, "b", ""⟩]).length =
      min 1 ([⟨2000, "a", ""⟩, ⟨1990, "b", ""⟩] : List HistEvent).length := by
  exact ⟨by decide, (claim5_selector (fun _ => 0) 1 _ (by decide)).1⟩

/-- C6: the Selector first keeps the events with
`birth_year ≤ year ≤ current_year`; if that filter is empty it keeps the
events with `year > 0` instead; and if that is still empty the result of
`get_history_today` is an element of the fixed filler pool. -/
theorem claim6_filter_chain (birth current : Int) (events : List HistEvent)
    (wresp : Except Unit (List WikiRaw)) (bresp : Except Unit (List BaiduRaw))
    (limit fillerIdx : Nat) (oracle : Nat → Nat) (t2s : String → String) :
    (inRangeFilter birth current events ≠ [] →
      filteredEvents birth current events = inRangeFilter birth current events) ∧
    (inRangeFilter birth current events = [] →
      filteredEvents birth current events = positiveFilter events) ∧
    (filteredEvents birth current (eventsOf wresp bresp) = [] →
      get_history_today wresp bresp birth current limit oracle fillerIdx t2s
        ∈ FALLBACK_INTERESTING_FACTS) := by
  refine ⟨?_, ?_, ?_⟩
  · intro h
    simp [filteredEvents, h]
  · intro h
    simp [filteredEvents, h]
  · intro h
    unfold get_history_today
    by_cases he : eventsOf wresp bresp = []
    · simp only [he, if_pos rfl]
      exact fallbackFact_mem _
    · simp only [if_neg he, h, if_pos rfl]
      exact fallbackFact_mem _

/-- Witness for C6: both providers fail, the filter chain is empty, and
the output is a filler-pool element. -/
theorem claim6_filter_chain_witness :
    filteredEvents 1999 2025 (eventsOf (Except.error ()) (Except.error ())) = [] ∧
    get_history_today (Except.error ()) (Except.error ()) 1999 2025 3 (fun _ => 0) 0 id
      ∈ FALLBACK_INTERESTING_FACTS := by
  exact ⟨rfl,
    (claim6_filter_chain 1999 2025 [] (Except.error ()) (Except.error ()) 3 0
      (fun _ => 0) id).2.2 rfl⟩

/-- C7: when the primary (Wikimedia) provider yields nothing, every event
that reaches the selection step comes from the secondary (Baidu)
provider's normalized result; the output is never a mix. -/
theorem claim7_secondary_only (wresp : Except Unit (List WikiRaw))
    (bresp : Except Unit (List BaiduRaw)) (birth current : Int) (limit : Nat)
    (oracle : Nat → Nat)
    (hw : get_history_today_from_wikimedia wresp = []) :
    ∀ e ∈ selectedOf oracle limit (filteredEvents birth current (eventsOf wresp bresp)),
      e ∈ get_history_today_from_baidu bresp := by
  intro e he
  have h1 : e ∈ filteredEvents birth current (eventsOf wresp bresp) := by
    have hsub := (sortByYearDesc_perm
        (sampleWR oracle
          (min limit (filteredEvents birth current (eventsOf wresp bresp)).length)
          (filteredEvents birth current (eventsOf wresp bresp)))).subperm.trans
      (sampleWR_subperm oracle _ _)
    exact hsub.subset he
  have h2 := filteredEvents_subset birth current _ h1
  rwa [eventsOf_of_wiki_empty wresp bresp hw] at h2

/-- Witness for C7: primary fails, the single selected event is the
secondary provider's event. -/
theorem claim7_secondary_only_witness :
    (⟨1999, "Event A", ""⟩ : HistEvent) ∈
      get_history_today_from_baidu (Except.ok [⟨"1999年", "Event A", ""⟩]) := by
  exact claim7_secondary_only (Except.error ()) (Except.ok [⟨"1999年", "Event A", ""⟩])
    1999 2025 3 (fun _ => 0) rfl ⟨1999, "Event A", ""⟩ (by decide)

/-- C8: `get_history_today` is total over every provider behaviour,
including raising ones (`Except.error`): it always returns a string, and
in the worst case (both providers failing) that string is an element of
the fixed filler pool; otherwise it is either a filler-pool element or a
rendered history block. -/
theorem claim8_no_exception (birth current : Int) (limit fillerIdx : Nat)
    (oracle : Nat → Nat) (t2s : String → String)
    (wresp : Except Unit (List WikiRaw)) (bresp : Except Unit (List BaiduRaw)) :
    get_history_today (Except.error ()) (Except.error ()) birth current limit oracle
      fillerIdx t2s ∈ FALLBACK_INTERESTING_FACTS ∧
    (get_history_today wresp bresp birth current limit oracle fillerIdx t2s
        ∈ FALLBACK_INTERESTING_FACTS ∨
      ∃ rest, get_history_today wresp bresp birth current limit oracle fillerIdx t2s =
        "历史上的今天：\n\n" ++ rest) := by
  constructor
  · exact fallbackFact_mem fillerIdx
  · by_cases he : eventsOf wresp bresp = []
    · left
      unfold get_history_today
      simp only [he, if_pos rfl]
      exact fallbackFact_mem _
    · by_cases hf : filteredEvents birth current (eventsOf wresp bresp) = []
      · left
        unfold get_history_today
        simp only [if_neg he, hf, if_pos rfl]
        exact fallbackFact_mem _
      · right
        refine ⟨String.intercalate "\n"
          ((selectedOf oracle limit (filteredEvents birth current (eventsOf wresp bresp))).map
            (renderLine birth t2s)), ?_⟩
        unfold get_history_today
        simp only [if_neg he, if_neg hf]

/-- C2, counterexample: the claim says that once an event older than the
window start is observed, no further event of the stream is processed
into an activity.  Here page 1 is full and consists of events older than
the window start, yet the in-window event on page 2 still becomes an
activity. -/
theorem claim2_counterexample :
    cexOldEvent ∈ cexPage1 ∧ cexOldEvent.created_at < 0 ∧
    eventStreamActivities cexStream 0 100 = ["合并了 PR: [T](u) (r)"] := by
  refine ⟨by decide, by decide, by rfl⟩

/-- C2, amended: observing an event older than the window start stops the
scan of the *current page only* (that page contributes nothing further);
paging stops after a page with fewer than 30 items (in particular an
empty one), and at most 3 pages are ever requested. -/
theorem claim2_amended (stream : Nat → Option (List GhEvent)) (ys ye : Int)
    (e : GhEvent) (rest : List GhEvent) (hold : e.created_at < ys) :
    process_events (e :: rest) ys ye = [] ∧
    (pagesRequested stream).length ≤ 3 ∧
    (∀ evs, stream 1 = some evs → evs.length < 30 → pagesRequested stream = [1]) ∧
    (∀ evs, stream 2 = some evs → evs.length < 30 → 3 ∉ pagesRequested stream) := by
  refine ⟨?_, ?_, ?_, ?_⟩
  · unfold process_events
    rw [List.take_succ_cons]
    simp [processEventsLoop, hold]
  · exact pagesRequestedLoop_length_le stream pagesFuel
  · intro evs h1 hlen
    unfold pagesRequested pagesFuel
    simp only [pagesRequestedLoop, h1]
    by_cases hemp : evs = []
    · simp [hemp]
    · simp [hemp, hlen]
  · intro evs h2 hlen
    unfold pagesRequested pagesFuel
    cases h1 : stream 1 with
    | none =>
      simp only [pagesRequestedLoop, h1, h2]
      by_cases hemp : evs = []
      · simp [hemp]
      · simp [hemp, hlen]
    | some evs1 =>
      simp only [pagesRequestedLoop, h1, h2]
      by_cases hemp1 : evs1 = []
      · simp [hemp1]
      · by_cases hlen1 : evs1.length < 30
        · simp [hemp1, hlen1]
        · by_cases hemp : evs = []
          · simp [hemp1, hlen1, hemp]
          · simp [hemp1, hlen1, hemp, hlen]

/-- Witness for C2's amended statement at concrete streams. -/
theorem claim2_amended_witness :
    process_events [cexOldEvent] 0 100 = [] ∧
    (pagesRequested cexStream).length ≤ 3 ∧
    pagesRequested cexShortStream = [1] ∧
    3 ∉ pagesRequested cexStream := by
  have h := claim2_amended cexStream 0 100 cexOldEvent [] (by decide)
  have h' := claim2_amended cexShortStream 0 100 cexOldEvent [] (by decide)
  exact ⟨h.1, h.2.1, h'.2.2.1 [cexMergedPR] rfl (by decide),
    h.2.2.2 [cexMergedPR] rfl (by decide)⟩

/-- C3, counterexample: the claim says every emitted event has non-empty
text and that the BCE marker always yields a negative year.  A payload
item with a parsable year but empty title and desc is emitted with empty
text, and the BCE-marked year string `公元前0年` is emitted with year 0,
which is not negative. -/
theorem claim3_counterexample :
    get_history_today_from_baidu
        (Except.ok [⟨"1999年", "", ""⟩, ⟨"公元前0年", "x", ""⟩]) =
      [⟨1999, "", ""⟩, ⟨0, "x", ""⟩] ∧
    containsBCE ("公元前0年").data = true ∧ ¬ ((0 : Int) < 0) := by
  refine ⟨by rfl, by rfl, by decide⟩

/-- A normalized Baidu event's year is exactly the parsed year of its
raw item. -/
theorem baiduNormalize_some_year (r : BaiduRaw) (e : HistEvent)
    (h : baiduNormalize r = some e) : parseBaiduYear r.year = some e.year := by
  unfold baiduNormalize at h
  cases hp : parseBaiduYear r.year with
  | none =>
    rw [hp] at h
    have h' : (none : Option HistEvent) = some e := h
    exact absurd h' (by simp)
  | some y =>
    rw [hp] at h
    have h' : some (⟨y, stripTags (pyOrString r.title r.desc), ""⟩ : HistEvent) = some e := h
    injection h' with h''
    subst h''
    rfl

/-- A BCE-marked year string parses to a non-positive year. -/
theorem parseBaiduYear_bce (s : String) (hbce : containsBCE s.data = true) :
    ∀ y : Int, parseBaiduYear s = some y → y ≤ 0 := by
  intro y hp
  unfold parseBaiduYear at hp
  rw [if_pos hbce] at hp
  cases hs : searchBCEDigits s.data with
  | none => rw [hs] at hp; simp at hp
  | some n =>
    rw [hs] at hp
    simp only [Option.map_some', Option.some.injEq] at hp
    rw [← hp]
    exact neg_nonpos.mpr (Int.ofNat_nonneg n)

/-- A normalized Wikimedia event carries its raw item's year and text, and
its year is nonzero. -/
theorem wikiNormalize_some_fields (r : WikiRaw) (f : HistEvent)
    (h : wikiNormalize r = some f) :
    r.year = some f.year ∧ r.text = f.text ∧ f.year ≠ 0 := by
  unfold wikiNormalize at h
  cases hy : r.year with
  | none =>
    rw [hy] at h
    have h' : (none : Option HistEvent) = some f := h
    exact absurd h' (by simp)
  | some y =>
    rw [hy] at h
    have h' : (if y ≠ 0 then
        some (⟨y, r.text, r.pages.headD ""⟩ : HistEvent)
      else none) = some f := h
    by_cases hz : y ≠ 0
    · rw [if_pos hz] at h'
      injection h' with h''
      subst h''
      exact ⟨rfl, rfl, hz⟩
    · rw [if_neg hz] at h'
      exact absurd h' (by simp)

/-- C3, amended: every emitted event has a year resolved to a signed
integer (items whose year cannot be parsed are dropped); a year string
carrying the BCE marker yields the negated digit magnitude, hence a
non-positive year (negative whenever the magnitude is nonzero); the
Wikimedia normalizer only emits events with a present, nonzero year.
The emitted text may be empty. -/
theorem claim3_amended (bresp : Except Unit (List BaiduRaw)) (wresp : Except Unit (List WikiRaw))
    (e f : HistEvent)
    (he : e ∈ get_history_today_from_baidu bresp)
    (hf : f ∈ get_history_today_from_wikimedia wresp) :
    (∃ raws r, bresp = Except.ok raws ∧ r ∈ raws ∧ parseBaiduYear r.year = some e.year ∧
      (containsBCE r.year.data = true → e.year ≤ 0)) ∧
    f.year ≠ 0 ∧
    (∃ wraws r, wresp = Except.ok wraws ∧ r ∈ wraws ∧ r.year = some f.year ∧ r.text = f.text) ∧
    (∀ r : BaiduRaw, parseBaiduYear r.year = none → baiduNormalize r = none) := by
  have hwiki : ∃ wraws r, wresp = Except.ok wraws ∧ r ∈ wraws ∧
      r.year = some f.year ∧ r.text = f.text ∧ f.year ≠ 0 := by
    cases wresp with
    | error u => exact absurd hf (List.not_mem_nil f)
    | ok wraws =>
      simp only [get_history_today_from_wikimedia, List.mem_filterMap] at hf
      obtain ⟨r, hr, hnorm⟩ := hf
      obtain ⟨h1, h2, h3⟩ := wikiNormalize_some_fields r f hnorm
      exact ⟨wraws, r, rfl, hr, h1, h2, h3⟩
  obtain ⟨wraws, rw0, hok, hrw, hy, htext, hnz⟩ := hwiki
  refine ⟨?_, hnz, ⟨wraws, rw0, hok, hrw, hy, htext⟩, ?_⟩
  · cases bresp with
    | error u => exact absurd he (List.not_mem_nil e)
    | ok raws =>
      simp only [get_history_today_from_baidu, List.mem_filterMap] at he
      obtain ⟨r, hr, hnorm⟩ := he
      have hparse := baiduNormalize_some_year r e hnorm
      exact ⟨raws, r, rfl, hr, hparse,
        fun hbce => parseBaiduYear_bce r.year hbce e.year hparse⟩
  · intro r hr
    unfold baiduNormalize
    rw [hr]

/-- Witness for C3's amended statement at concrete payloads. -/
theorem claim3_amended_witness :
    parseBaiduYear "公元前200年" = some (-200) ∧ ((-200 : Int) ≤ 0) ∧
    ((⟨1999, "t", ""⟩ : HistEvent).year ≠ 0) := by
  have h := claim3_amended (Except.ok [⟨"公元前200年", "x", ""⟩])
      (Except.ok [⟨some 1999, "t", []⟩]) ⟨-200, "x", ""⟩ ⟨1999, "t", ""⟩
      (by decide) (by decide)
  obtain ⟨⟨raws, r, hok, hr, hparse, hbce⟩, hf, _, _⟩ := h
  injection hok with hok'
  subst hok'
  have hr' : r = ⟨"公元前200年", "x", ""⟩ := by simpa using hr
  subst hr'
  exact ⟨hparse, hbce (by decide), hf⟩

/-- C9: the year is treated as leap (total 366 days, else 365) exactly
when it is divisible by 4 and (not divisible by 100, or divisible by
400); and for a day-of-year in range, the progress bar has exactly 20
slots, `floor(d * 20 / total)` filled blocks and the remainder empty. -/
theorem claim9_year_progress (y : Int) (d : Nat) (_h1 : 1 ≤ d) (h2 : d ≤ total_days y) :
    (total_days y = 366 ↔ (4 ∣ y ∧ (¬ (100:Int) ∣ y ∨ (400:Int) ∣ y))) ∧
    (total_days y = 365 ↔ ¬ (4 ∣ y ∧ (¬ (100:Int) ∣ y ∨ (400:Int) ∣ y))) ∧
    (progress_bar d (total_days y)).length = 20 ∧
    (progress_bar d (total_days y)).data.count '█' = d * 20 / total_days y ∧
    (progress_bar d (total_days y)).data.count '░' = 20 - d * 20 / total_days y := by
  have hleap : is_leap_year y = true ↔ (4 ∣ y ∧ (¬ (100:Int) ∣ y ∨ (400:Int) ∣ y)) := by
    unfold is_leap_year
    simp only [Bool.and_eq_true, Bool.or_eq_true, beq_iff_eq, bne_iff_ne, ne_eq]
    omega
  have htpos : 0 < total_days y := by
    unfold total_days
    split <;> omega
  have hfle : filled_blocks d (total_days y) ≤ 20 := by
    unfold filled_blocks
    calc d * 20 / total_days y ≤ total_days y * 20 / total_days y :=
          Nat.div_le_div_right (Nat.mul_le_mul_right 20 h2)
      _ = 20 := Nat.mul_div_cancel_left 20 htpos
  have hblocks : filled_blocks d (total_days y) = d * 20 / total_days y := rfl
  have h366 : total_days y = 366 ↔ is_leap_year y = true := by
    unfold total_days
    by_cases hl : is_leap_year y = true <;> simp [hl]
  have h365 : total_days y = 365 ↔ ¬ is_leap_year y = true := by
    unfold total_days
    by_cases hl : is_leap_year y = true <;> simp [hl]
  refine ⟨?_, ?_, ?_, ?_, ?_⟩
  · rw [h366, hleap]
  · rw [h365, hleap]
  · unfold progress_bar
    simp only [String.length]
    rw [List.length_append, List.length_replicate, List.length_replicate]
    omega
  · unfold progress_bar
    simp only [String.data]
    rw [List.count_append, List.count_replicate, List.count_replicate]
    norm_num [hblocks]
    intro h
    exact absurd h (by decide)
  · unfold progress_bar
    simp only [String.data]
    rw [List.count_append, List.count_replicate, List.count_replicate]
    norm_num [hblocks]
    intro h
    exact absurd h (by decide)

/-- Witness for C9 at the concrete non-leap year 2025, day 100. -/
theorem claim9_year_progress_witness :
    (1 ≤ 100 ∧ 100 ≤ total_days 2025) ∧
    (progress_bar 100 (total_days 2025)).length = 20 := by
  exact ⟨⟨by decide, by decide⟩,
    (claim9_year_progress 2025 100 (by decide) (by decide)).2.2.1⟩

/-- C10: on a run that passes the idempotency gate, messages are sent and
a tracking comment is created only when the hour (fixed timezone) is
between 3 and 9 inclusive; outside that window nothing is sent and no
comment is created. -/
theorem claim10_send_window (comments : List ShTime) (now : ShTime) (tc dc : Bool)
    (hgate : (get_today_get_up_status comments now).truthy = false) :
    ((mainRun comments now tc dc).commentCreated = true ∨
        (mainRun comments now tc dc).teleSent = true ∨
        (mainRun comments now tc dc).dingSent = true →
      3 ≤ now.hour ∧ now.hour ≤ 9) ∧
    (¬ (3 ≤ now.hour ∧ now.hour ≤ 9) → mainRun comments now tc dc = noEffects) := by
  unfold mainRun
  rw [hgate]
  by_cases hh : 3 ≤ now.hour ∧ now.hour ≤ 9
  · have hcond : (decide (3 ≤ now.hour) && decide (now.hour ≤ 9)) = true := by
      simp [hh.1, hh.2]
    simp only [Bool.false_eq_true, if_false, hcond, if_true]
    exact ⟨fun _ => hh, fun h => absurd hh h⟩
  · have hcond : (decide (3 ≤ now.hour) && decide (now.hour ≤ 9)) = false := by
      rcases Decidable.not_and_iff_or_not.mp hh with h | h <;> simp [h]
    simp only [Bool.false_eq_true, if_false, hcond]
    constructor
    · intro hor
      rcases hor with h | h | h <;> simp [noEffects] at h
    · intro _
      trivial

/-- Witness for C10: gate passed (different day), hour 23 is outside the
window, so nothing is sent and no comment is created. -/
theorem claim10_send_window_witness :
    (get_today_get_up_status [⟨10, 11, 3⟩] ⟨10, 12, 23⟩).truthy = false ∧
    mainRun [⟨10, 11, 3⟩] ⟨10, 12, 23⟩ true true = noEffects := by
  exact ⟨by decide,
    (claim10_send_window [⟨10, 11, 3⟩] ⟨10, 12, 23⟩ true true (by decide)).2 (by decide)⟩
